import Mathlib

/-!
Verification of the PCB component-placement program
(`placement_solver.py` and `Test_placement_solver_ver2.py`).

Shallow embedding conventions:
* Rectangles `{x, y, w, h}` are embedded as a `Rect` structure over `ℚ`.
  The Python floats appearing in this program are produced from integer
  grid coordinates by halving (centers) and by the arithmetic of the
  validator, all of which is exact in binary floating point at this scale
  and exact over `ℚ`.
* `math.hypot` / `math.sqrt` Euclidean distances only ever occur in
  comparisons `dist <= r` with `r ≥ 0`, or inside the score
  `bbox + 10 * dist`.  Comparisons are embedded as the equivalent exact
  rational comparisons `distSq ≤ r ^ 2`; the score is embedded over `ℝ`
  using `Real.sqrt` of the rational squared distance.
* Python dictionaries holding the five components become a structure of
  five `Option Rect` fields (a name is either absent or bound once);
  a complete placement is the structure `FullPlacement` of five `Rect`s.
-/

/-- Board dimensions `BOARD_DIMS = (50, 50)`, shared by both source files. -/
def BOARD_DIMS : ℚ × ℚ := (50, 50)

/-- Proximity radius constant `PROXIMITY_RADIUS = 10.0`. -/
def PROXIMITY_RADIUS : ℚ := 10

/-- Center-of-mass radius constant `CENTER_OF_MASS_RADIUS = 2.0`. -/
def CENTER_OF_MASS_RADIUS : ℚ := 2

/-- Keep-out zone dimensions `KEEPOUT_ZONE_DIMS = (10, 20)`:
width across the edge, depth inward. -/
def KEEPOUT_ZONE_DIMS : ℚ × ℚ := (10, 20)

/-- An axis-aligned rectangle `{'x':…, 'y':…, 'w':…, 'h':…}`. -/
structure Rect where
  x : ℚ
  y : ℚ
  w : ℚ
  h : ℚ
deriving DecidableEq

/-- `center_of(comp)` / `_get_center(comp)`: midpoint of a rectangle. -/
def center_of (c : Rect) : ℚ × ℚ := (c.x + c.w / 2, c.y + c.h / 2)

/-- Squared Euclidean distance.  The sources compute
`distance(a, b) = math.hypot(a0-b0, a1-b1)`; every comparison
`distance … <= r` in the sources is embedded as `distSq … ≤ r ^ 2`,
which is equivalent for `0 ≤ r`. -/
def distSq (a b : ℚ × ℚ) : ℚ := (a.1 - b.1) ^ 2 + (a.2 - b.2) ^ 2

/-- `bbox_overlap(a, b)` from `placement_solver.py` (the same formula is
inlined in `validate_placement` of the test file):
`not (a.x+a.w <= b.x or b.x+b.w <= a.x or a.y+a.h <= b.y or b.y+b.h <= a.y)`. -/
def bbox_overlap (a b : Rect) : Bool :=
  !(decide (a.x + a.w ≤ b.x) || decide (b.x + b.w ≤ a.x) ||
    decide (a.y + a.h ≤ b.y) || decide (b.y + b.h ≤ a.y))

/-- `in_bounds(comp)`: the rectangle lies within `[0, W] × [0, H]`. -/
def in_bounds (c : Rect) : Bool :=
  decide (0 ≤ c.x) && decide (0 ≤ c.y) &&
  decide (c.x + c.w ≤ BOARD_DIMS.1) && decide (c.y + c.h ≤ BOARD_DIMS.2)

/-- The local `ccw(A, B, C)` of `line_intersects_rect` (identical in the
test file): `(C[1]-A[1]) * (B[0]-A[0]) > (B[1]-A[1]) * (C[0]-A[0])`. -/
def ccw (A B C : ℚ × ℚ) : Bool :=
  decide ((C.2 - A.2) * (B.1 - A.1) > (B.2 - A.2) * (C.1 - A.1))

/-- The local `intersect(A, B, C, D)`:
`ccw(A,C,D) != ccw(B,C,D) and ccw(A,B,C) != ccw(A,B,D)`. -/
def segIntersect (A B C D : ℚ × ℚ) : Bool :=
  (ccw A C D != ccw B C D) && (ccw A B C != ccw A B D)

/-- `line_intersects_rect(p1, p2, rect)`: tests the segment against the
four rectangle edges `tl-tr`, `tr-br`, `br-bl`, `bl-tl`, where
`tl = (x, y)`, `tr = (x+w, y)`, `bl = (x, y+h)`, `br = (x+w, y+h)`. -/
def line_intersects_rect (p1 p2 : ℚ × ℚ) (rect : Rect) : Bool :=
  let tl : ℚ × ℚ := (rect.x, rect.y)
  let tr : ℚ × ℚ := (rect.x + rect.w, rect.y)
  let bl : ℚ × ℚ := (rect.x, rect.y + rect.h)
  let br : ℚ × ℚ := (rect.x + rect.w, rect.y + rect.h)
  segIntersect p1 p2 tl tr || segIntersect p1 p2 tr br ||
  segIntersect p1 p2 br bl || segIntersect p1 p2 bl tl

/-- `compute_keepout_zone(usb)` from `placement_solver.py` (the same
branching is inlined in the test file's `validate_placement`): pick the
touched edge in priority order bottom (`y == 0`), top (`y + h == H`),
left (`x == 0`), else right, and build the zone inward from that edge. -/
def compute_keepout_zone (usb : Rect) : Rect :=
  let zone_w := KEEPOUT_ZONE_DIMS.1
  let zone_depth := KEEPOUT_ZONE_DIMS.2
  let usb_c := center_of usb
  if usb.y = 0 then
    ⟨usb_c.1 - zone_w / 2, 0, zone_w, zone_depth⟩
  else if usb.y + usb.h = BOARD_DIMS.2 then
    ⟨usb_c.1 - zone_w / 2, BOARD_DIMS.2 - zone_depth, zone_w, zone_depth⟩
  else if usb.x = 0 then
    ⟨0, usb_c.2 - zone_w / 2, zone_depth, zone_w⟩
  else
    ⟨BOARD_DIMS.1 - zone_depth, usb_c.2 - zone_w / 2, zone_depth, zone_w⟩

/-- The base placement produced by `place_edge_components()`: the three
edge-bound connectors, in source insertion order MB1, MB2, USB. -/
structure BasePlacement where
  mb1 : Rect
  mb2 : Rect
  usb : Rect
deriving DecidableEq

/-- `place_edge_components()`: MB1 on the left edge at `y = 10` clamped
into bounds, MB2 mirrored on the right edge at the same `y`, USB centered
horizontally with `usb_y = BOARD_DIMS[1] - usb_h`.  Component sizes are
the `SIZES` constants: connectors `5 × 15`, USB `5 × 5`. -/
def place_edge_components : BasePlacement :=
  let mb_w : ℚ := 5
  let mb_h : ℚ := 15
  let usb_w : ℚ := 5
  let usb_h : ℚ := 5
  let mb1_y : ℚ := min (max 0 10) (BOARD_DIMS.2 - mb_h)
  let mb2_x : ℚ := BOARD_DIMS.1 - mb_w
  let usb_x : ℚ := (BOARD_DIMS.1 - usb_w) / 2
  let usb_y : ℚ := BOARD_DIMS.2 - usb_h
  { mb1 := ⟨0, mb1_y, mb_w, mb_h⟩
    mb2 := ⟨mb2_x, mb1_y, mb_w, mb_h⟩
    usb := ⟨usb_x, usb_y, usb_w, usb_h⟩ }

/-- C2 counterexample: the claim states that in the base placement the
USB rectangle satisfies `x = (W - w)/2` and `y = 0`.  The code sets
`usb_y = BOARD_DIMS[1] - usb_h = 45`, so the conjunction is false. -/
theorem usb_bottom_edge_counterexample :
    ¬ (place_edge_components.usb.x = (BOARD_DIMS.1 - 5) / 2 ∧
       place_edge_components.usb.y = 0) := by
  simp [place_edge_components, BOARD_DIMS]
  norm_num

/-- C2 amended: the deterministic seating stage places the USB connector
centered horizontally (`x = (W - w)/2`) with `y = H - h`, i.e. touching
the top board edge in lower-left-origin coordinates (the plotting code
inverts the y-axis, which renders this edge at the visual bottom). -/
theorem place_edge_components_usb_position :
    place_edge_components.usb.x = (BOARD_DIMS.1 - 5) / 2 ∧
    place_edge_components.usb.y = BOARD_DIMS.2 - 5 ∧
    place_edge_components.usb.y + place_edge_components.usb.h = BOARD_DIMS.2 := by
  refine ⟨?_, ?_, ?_⟩ <;> norm_num [place_edge_components, BOARD_DIMS]

/-- C5: `compute_keepout_zone` selects the edge in the fixed priority
order bottom (`y = 0`), then top (`y + h = H`), then left (`x = 0`),
else right — so at a corner the earlier check wins — and in every case
the zone satisfies `zone.w * zone.h = zone_w * zone_depth`. -/
theorem compute_keepout_zone_priority_and_area :
    ∀ r : Rect,
      (compute_keepout_zone r).w * (compute_keepout_zone r).h =
        KEEPOUT_ZONE_DIMS.1 * KEEPOUT_ZONE_DIMS.2 ∧
      (r.y = 0 →
        compute_keepout_zone r = ⟨(center_of r).1 - 5, 0, 10, 20⟩) ∧
      (r.y ≠ 0 → r.y + r.h = 50 →
        compute_keepout_zone r = ⟨(center_of r).1 - 5, 30, 10, 20⟩) ∧
      (r.y ≠ 0 → r.y + r.h ≠ 50 → r.x = 0 →
        compute_keepout_zone r = ⟨0, (center_of r).2 - 5, 20, 10⟩) ∧
      (r.y ≠ 0 → r.y + r.h ≠ 50 → r.x ≠ 0 →
        compute_keepout_zone r = ⟨50 - 20, (center_of r).2 - 5, 20, 10⟩) := by
  intro r
  unfold compute_keepout_zone KEEPOUT_ZONE_DIMS BOARD_DIMS
  refine ⟨?_, ?_, ?_, ?_, ?_⟩
  · split_ifs <;> norm_num
  · intro h0; simp [h0]; norm_num
  · intro h0 h1; simp [h0, h1]; norm_num
  · intro h0 h1 h2; simp [h0, h1, h2]; norm_num
  · intro h0 h1 h2; simp [h0, h1, h2]; norm_num

/-- C5 witness: a rectangle touching both the bottom and the left edge
(a corner) takes the bottom-edge branch, and the zone area is `200`. -/
theorem compute_keepout_zone_priority_and_area_witness :
    (compute_keepout_zone ⟨0, 0, 5, 5⟩).w * (compute_keepout_zone ⟨0, 0, 5, 5⟩).h =
      KEEPOUT_ZONE_DIMS.1 * KEEPOUT_ZONE_DIMS.2 ∧
    compute_keepout_zone ⟨0, 0, 5, 5⟩ = ⟨(center_of ⟨0, 0, 5, 5⟩).1 - 5, 0, 10, 20⟩ :=
  ⟨(compute_keepout_zone_priority_and_area ⟨0, 0, 5, 5⟩).1,
   (compute_keepout_zone_priority_and_area ⟨0, 0, 5, 5⟩).2.1 rfl⟩

/-- C7: the AABB overlap test is symmetric, and two rectangles sharing
only an edge (`a.x + a.w = b.x`) are reported as not overlapping
(closed touching convention). -/
theorem bbox_overlap_symm_and_touching :
    (∀ a b : Rect, bbox_overlap a b = bbox_overlap b a) ∧
    (∀ a b : Rect, a.x + a.w = b.x → bbox_overlap a b = false) := by
  constructor
  · intro a b
    unfold bbox_overlap
    apply congrArg
    rcases Decidable.em (a.x + a.w ≤ b.x) with h1 | h1 <;>
      rcases Decidable.em (b.x + b.w ≤ a.x) with h2 | h2 <;>
      rcases Decidable.em (a.y + a.h ≤ b.y) with h3 | h3 <;>
      rcases Decidable.em (b.y + b.h ≤ a.y) with h4 | h4 <;>
      simp [h1, h2, h3, h4]
  · intro a b h
    unfold bbox_overlap
    simp [le_of_eq h]

/-- C7 witness: instantiation at two concrete rectangles sharing one
vertical edge. -/
theorem bbox_overlap_symm_and_touching_witness :
    bbox_overlap ⟨0, 0, 5, 5⟩ ⟨5, 0, 5, 5⟩ = bbox_overlap ⟨5, 0, 5, 5⟩ ⟨0, 0, 5, 5⟩ ∧
    bbox_overlap ⟨0, 0, 5, 5⟩ ⟨5, 0, 5, 5⟩ = false :=
  ⟨bbox_overlap_symm_and_touching.1 ⟨0, 0, 5, 5⟩ ⟨5, 0, 5, 5⟩,
   bbox_overlap_symm_and_touching.2 ⟨0, 0, 5, 5⟩ ⟨5, 0, 5, 5⟩ (by norm_num)⟩

/-- The five fixed component identities. -/
inductive CompName
  | usb | mc | xtal | mb1 | mb2
deriving DecidableEq

/-- A placement dictionary: each of the five required component names is
either absent (`none`) or bound to a rectangle. -/
structure Placement where
  usb : Option Rect
  mc : Option Rect
  xtal : Option Rect
  mb1 : Option Rect
  mb2 : Option Rect
deriving DecidableEq

/-- A complete placement: all five names present. -/
structure FullPlacement where
  usb : Rect
  mc : Rect
  xtal : Rect
  mb1 : Rect
  mb2 : Rect
deriving DecidableEq

/-- Look up one component of a complete placement by name. -/
def FullPlacement.get (p : FullPlacement) : CompName → Rect
  | .usb => p.usb
  | .mc => p.mc
  | .xtal => p.xtal
  | .mb1 => p.mb1
  | .mb2 => p.mb2

/-- `placement.values()`: the five rectangles of a complete placement.
The list order is immaterial to every use (all/any/pairwise/sum). -/
def FullPlacement.values (p : FullPlacement) : List Rect :=
  [p.usb, p.mc, p.xtal, p.mb1, p.mb2]

/-- `all(k in placement for k in required_keys)` together with the
extraction of the five rectangles: `some` of the complete placement when
every required name is present, else `none`. -/
def Placement.complete? : Placement → Option FullPlacement
  | ⟨some u, some m, some c, some b1, some b2⟩ => some ⟨u, m, c, b1, b2⟩
  | _ => none

/-- View a complete placement as a placement dictionary. -/
def FullPlacement.toPlacement (p : FullPlacement) : Placement :=
  ⟨some p.usb, some p.mc, some p.xtal, some p.mb1, some p.mb2⟩

/-- Pairwise overlap scan over a list of rectangles: the double loop
`for i … for j in range(i+1, …): if bbox_overlap …` (with its early
breaks) computes exactly whether some pair overlaps.  The same loop
appears in `validate_full`, in `find_solution` and in the test file's
`validate_placement`. -/
def anyPairOverlap : List Rect → Bool
  | [] => false
  | c :: rest => rest.any (fun d => bbox_overlap c d) || anyPairOverlap rest

/-- Rule 'Boundary Constraint': every component in bounds. -/
def ruleBoundary (p : FullPlacement) : Bool :=
  p.values.all in_bounds

/-- Rule 'No Overlapping': no pair of components overlaps. -/
def ruleNoOverlap (p : FullPlacement) : Bool :=
  !anyPairOverlap p.values

/-- Rule 'Edge Placement': USB, MB1, MB2 each touch some board edge. -/
def ruleEdgePlacement (p : FullPlacement) : Bool :=
  [p.usb, p.mb1, p.mb2].all (fun c =>
    decide (c.x = 0) || decide (c.y = 0) ||
    decide (c.x + c.w = BOARD_DIMS.1) || decide (c.y + c.h = BOARD_DIMS.2))

/-- Rule 'Parallel Placement': the two mikroBUS connectors have equal
width and sit on opposite edges (left/right or top/bottom pair). -/
def ruleParallel (p : FullPlacement) : Bool :=
  decide (p.mb1.w = p.mb2.w) &&
  (decide (p.mb1.x = 0 ∧ p.mb2.x + p.mb2.w = BOARD_DIMS.1) ||
   decide (p.mb1.x + p.mb1.w = BOARD_DIMS.1 ∧ p.mb2.x = 0) ||
   decide (p.mb1.y = 0 ∧ p.mb2.y + p.mb2.h = BOARD_DIMS.2) ||
   decide (p.mb1.y + p.mb1.h = BOARD_DIMS.2 ∧ p.mb2.y = 0))

/-- Squared distance between the crystal center and the microcontroller
center (the sources compare its square root against the radius). -/
def proximityDistSq (p : FullPlacement) : ℚ :=
  distSq (center_of p.xtal) (center_of p.mc)

/-- Rule 'Proximity Constraint': `dist <= PROXIMITY_RADIUS`. -/
def ruleProximity (p : FullPlacement) : Bool :=
  decide (proximityDistSq p ≤ PROXIMITY_RADIUS ^ 2)

/-- Center of mass: arithmetic mean of the five component centers. -/
def com_point (p : FullPlacement) : ℚ × ℚ :=
  let centers := p.values.map center_of
  ((centers.map Prod.fst).sum / centers.length,
   (centers.map Prod.snd).sum / centers.length)

/-- Squared distance of the center of mass from the board center. -/
def comDistSq (p : FullPlacement) : ℚ :=
  distSq (com_point p) (BOARD_DIMS.1 / 2, BOARD_DIMS.2 / 2)

/-- Rule 'Global Balance': `com_dist <= CENTER_OF_MASS_RADIUS`. -/
def ruleBalance (p : FullPlacement) : Bool :=
  decide (comDistSq p ≤ CENTER_OF_MASS_RADIUS ^ 2)

/-- Rule 'Keep-Out Zone': the crystal-to-microcontroller center segment
does not intersect the keep-out zone derived from the USB connector. -/
def ruleKeepOut (p : FullPlacement) : Bool :=
  !line_intersects_rect (center_of p.xtal) (center_of p.mc)
    (compute_keepout_zone p.usb)

/-- Diagnostic payloads of the per-rule results.  The sources attach a
string to each rule; the numeric diagnostics print the square root of
the recorded squared distance, so the payload here records that squared
distance exactly. -/
inductive Diag
  | empty
  | actualDistSq (d : ℚ)
  | comDistSq (d : ℚ)
  | clear
  | obstructed
deriving DecidableEq

/-- The seven per-rule `(passed, diagnostic)` results of `validate_full`,
in source insertion order. -/
structure RuleResults where
  boundary : Bool × Diag
  noOverlap : Bool × Diag
  edge : Bool × Diag
  parallel : Bool × Diag
  proximity : Bool × Diag
  balance : Bool × Diag
  keepOut : Bool × Diag
deriving DecidableEq

/-- The rule-results dictionary built by `validate_full` for a complete
placement (each rule evaluated independently of the others). -/
def validate_rules (p : FullPlacement) : RuleResults where
  boundary := (ruleBoundary p, Diag.empty)
  noOverlap := (ruleNoOverlap p, Diag.empty)
  edge := (ruleEdgePlacement p, Diag.empty)
  parallel := (ruleParallel p, Diag.empty)
  proximity := (ruleProximity p, Diag.actualDistSq (proximityDistSq p))
  balance := (ruleBalance p, Diag.comDistSq (comDistSq p))
  keepOut := (ruleKeepOut p, if ruleKeepOut p then Diag.clear else Diag.obstructed)

/-- `all(item[0] for item in results.values())`. -/
def RuleResults.overall (r : RuleResults) : Bool :=
  r.boundary.1 && r.noOverlap.1 && r.edge.1 && r.parallel.1 &&
  r.proximity.1 && r.balance.1 && r.keepOut.1

/-- Second component of `validate_full`'s return value: either the
distinct missing-component dictionary `{'missing': True}` or the
per-rule results dictionary. -/
inductive ValidateOut
  | missing
  | results (r : RuleResults)
deriving DecidableEq

/-- `validate_full(placement)` from `placement_solver.py`: short-circuit
to `(False, {'missing': True})` when a required name is absent, else the
overall AND together with the per-rule results. -/
def validate_full (p : Placement) : Bool × ValidateOut :=
  match p.complete? with
  | none => (false, ValidateOut.missing)
  | some fp => ((validate_rules fp).overall, ValidateOut.results (validate_rules fp))

/-- `validate_placement(placement)` from `Test_placement_solver_ver2.py`:
same missing-key check and the same seven rule formulas (they are
textually duplicated between the two files), returning only the overall
boolean. -/
def validate_placement (p : Placement) : Bool :=
  match p.complete? with
  | none => false
  | some fp => (validate_rules fp).overall

/-- C3: on a placement missing a required name, `validate_full` returns
overall-invalid with the distinct missing-component diagnostic and no
per-rule results; on a complete placement it evaluates all seven rules
unconditionally, returns a `(bool, diagnostic)` pair per rule, and the
overall boolean is the AND of the seven rule booleans. -/
theorem validate_full_contract :
    (∀ p : Placement,
        (p.usb = none ∨ p.mc = none ∨ p.xtal = none ∨ p.mb1 = none ∨ p.mb2 = none) →
        validate_full p = (false, ValidateOut.missing)) ∧
    (∀ r : RuleResults, ValidateOut.missing ≠ ValidateOut.results r) ∧
    (∀ u m c b1 b2 : Rect,
        validate_full ⟨some u, some m, some c, some b1, some b2⟩ =
          ((validate_rules ⟨u, m, c, b1, b2⟩).overall,
           ValidateOut.results (validate_rules ⟨u, m, c, b1, b2⟩)) ∧
        (validate_rules ⟨u, m, c, b1, b2⟩).boundary =
          (ruleBoundary ⟨u, m, c, b1, b2⟩, Diag.empty) ∧
        (validate_rules ⟨u, m, c, b1, b2⟩).noOverlap =
          (ruleNoOverlap ⟨u, m, c, b1, b2⟩, Diag.empty) ∧
        (validate_rules ⟨u, m, c, b1, b2⟩).edge =
          (ruleEdgePlacement ⟨u, m, c, b1, b2⟩, Diag.empty) ∧
        (validate_rules ⟨u, m, c, b1, b2⟩).parallel =
          (ruleParallel ⟨u, m, c, b1, b2⟩, Diag.empty) ∧
        (validate_rules ⟨u, m, c, b1, b2⟩).proximity =
          (ruleProximity ⟨u, m, c, b1, b2⟩,
           Diag.actualDistSq (proximityDistSq ⟨u, m, c, b1, b2⟩)) ∧
        (validate_rules ⟨u, m, c, b1, b2⟩).balance =
          (ruleBalance ⟨u, m, c, b1, b2⟩,
           Diag.comDistSq (comDistSq ⟨u, m, c, b1, b2⟩)) ∧
        (validate_rules ⟨u, m, c, b1, b2⟩).keepOut.1 =
          ruleKeepOut ⟨u, m, c, b1, b2⟩ ∧
        ((validate_full ⟨some u, some m, some c, some b1, some b2⟩).1 = true ↔
          (ruleBoundary ⟨u, m, c, b1, b2⟩ = true ∧
           ruleNoOverlap ⟨u, m, c, b1, b2⟩ = true ∧
           ruleEdgePlacement ⟨u, m, c, b1, b2⟩ = true ∧
           ruleParallel ⟨u, m, c, b1, b2⟩ = true ∧
           ruleProximity ⟨u, m, c, b1, b2⟩ = true ∧
           ruleBalance ⟨u, m, c, b1, b2⟩ = true ∧
           ruleKeepOut ⟨u, m, c, b1, b2⟩ = true))) := by
  refine ⟨?_, ?_, ?_⟩
  · intro p h
    obtain ⟨pu, pm, pc, pb1, pb2⟩ := p
    cases pu <;> cases pm <;> cases pc <;> cases pb1 <;> cases pb2 <;>
      simp_all [validate_full, Placement.complete?]
  · intro r h
    exact ValidateOut.noConfusion h
  · intro u m c b1 b2
    refine ⟨rfl, rfl, rfl, rfl, rfl, rfl, rfl, rfl, ?_⟩
    show (validate_rules ⟨u, m, c, b1, b2⟩).overall = true ↔ _
    simp [RuleResults.overall, validate_rules, and_assoc]

/-- C3 witness: a placement missing the microcontroller yields the
missing-component result; a concrete complete placement yields the
per-rule results with the overall AND. -/
theorem validate_full_contract_witness :
    validate_full ⟨some ⟨0, 0, 1, 1⟩, none, some ⟨0, 0, 1, 1⟩,
        some ⟨0, 0, 1, 1⟩, some ⟨0, 0, 1, 1⟩⟩ = (false, ValidateOut.missing) ∧
    validate_full ⟨some ⟨0, 0, 1, 1⟩, some ⟨6, 0, 1, 1⟩, some ⟨3, 0, 1, 1⟩,
        some ⟨9, 0, 1, 1⟩, some ⟨12, 0, 1, 1⟩⟩ =
      ((validate_rules ⟨⟨0, 0, 1, 1⟩, ⟨6, 0, 1, 1⟩, ⟨3, 0, 1, 1⟩,
          ⟨9, 0, 1, 1⟩, ⟨12, 0, 1, 1⟩⟩).overall,
       ValidateOut.results (validate_rules ⟨⟨0, 0, 1, 1⟩, ⟨6, 0, 1, 1⟩,
          ⟨3, 0, 1, 1⟩, ⟨9, 0, 1, 1⟩, ⟨12, 0, 1, 1⟩⟩)) :=
  ⟨validate_full_contract.1 _ (Or.inr (Or.inl rfl)),
   (validate_full_contract.2.2 ⟨0, 0, 1, 1⟩ ⟨6, 0, 1, 1⟩ ⟨3, 0, 1, 1⟩
      ⟨9, 0, 1, 1⟩ ⟨12, 0, 1, 1⟩).1⟩

/-- `min_x = min(c['x'] for c in placement.values())`. -/
def bbox_min_x (p : FullPlacement) : ℚ :=
  min p.usb.x (min p.mc.x (min p.xtal.x (min p.mb1.x p.mb2.x)))

/-- `max_x = max(c['x'] + c['w'] for c in placement.values())`. -/
def bbox_max_x (p : FullPlacement) : ℚ :=
  max (p.usb.x + p.usb.w) (max (p.mc.x + p.mc.w)
    (max (p.xtal.x + p.xtal.w) (max (p.mb1.x + p.mb1.w) (p.mb2.x + p.mb2.w))))

/-- `min_y = min(c['y'] for c in placement.values())`. -/
def bbox_min_y (p : FullPlacement) : ℚ :=
  min p.usb.y (min p.mc.y (min p.xtal.y (min p.mb1.y p.mb2.y)))

/-- `max_y = max(c['y'] + c['h'] for c in placement.values())`. -/
def bbox_max_y (p : FullPlacement) : ℚ :=
  max (p.usb.y + p.usb.h) (max (p.mc.y + p.mc.h)
    (max (p.xtal.y + p.xtal.h) (max (p.mb1.y + p.mb1.h) (p.mb2.y + p.mb2.h))))

/-- `bounding_box_area = (max_x - min_x) * (max_y - min_y)` over the
corners of all five rectangles (identical in `compute_score` of the
solver and `score_placement` of the test file). -/
def bounding_box_area (p : FullPlacement) : ℚ :=
  (bbox_max_x p - bbox_min_x p) * (bbox_max_y p - bbox_min_y p)

/-- Squared centrality: squared distance from the microcontroller center
to the board center `(W/2, H/2)`. -/
def centralitySq (p : FullPlacement) : ℚ :=
  distSq (center_of p.mc) (BOARD_DIMS.1 / 2, BOARD_DIMS.2 / 2)

/-- `centrality_score`: the Euclidean distance itself, over `ℝ`. -/
noncomputable def centrality_score (p : FullPlacement) : ℝ :=
  Real.sqrt (centralitySq p)

/-- `compute_score` / `score_placement` total:
`bounding_box_area + centrality_score * 10` (lower is better). -/
noncomputable def total_score (p : FullPlacement) : ℝ :=
  bounding_box_area p + centrality_score p * 10

/-- The sample placement from the test file's demo block. -/
def sample_valid_placement : FullPlacement where
  usb := ⟨20, 45, 5, 5⟩
  mc := ⟨22, 22, 5, 5⟩
  xtal := ⟨25, 14, 5, 5⟩
  mb1 := ⟨0, 15, 5, 15⟩
  mb2 := ⟨45, 15, 5, 15⟩

/-- C4: on the sample placement all seven validator rules pass (hence
`validate_placement` returns `True`), and the score decomposes exactly
as `bbox_area + 10 × centrality` recomputed from the formula:
`bbox_area = (50 - 0) * (50 - 14) = 1800` and
`centrality = dist((24.5, 24.5), (25, 25)) = √(1/2)`. -/
theorem sample_placement_valid_and_score :
    validate_placement sample_valid_placement.toPlacement = true ∧
    ruleBoundary sample_valid_placement = true ∧
    ruleNoOverlap sample_valid_placement = true ∧
    ruleEdgePlacement sample_valid_placement = true ∧
    ruleParallel sample_valid_placement = true ∧
    ruleProximity sample_valid_placement = true ∧
    ruleBalance sample_valid_placement = true ∧
    ruleKeepOut sample_valid_placement = true ∧
    bounding_box_area sample_valid_placement = 1800 ∧
    centralitySq sample_valid_placement = 1 / 2 ∧
    total_score sample_valid_placement = 1800 + Real.sqrt (1 / 2) * 10 := by
  have hbb : bounding_box_area sample_valid_placement = 1800 := by
    norm_num [bounding_box_area, bbox_min_x, bbox_max_x, bbox_min_y, bbox_max_y,
      sample_valid_placement, min_def, max_def]
  have hc : centralitySq sample_valid_placement = 1 / 2 := by
    norm_num [centralitySq, distSq, center_of, sample_valid_placement, BOARD_DIMS]
  have h1 : ruleBoundary sample_valid_placement = true := by
    norm_num [ruleBoundary, FullPlacement.values, in_bounds, sample_valid_placement,
      BOARD_DIMS]
  have h2 : ruleNoOverlap sample_valid_placement = true := by
    norm_num [ruleNoOverlap, FullPlacement.values, anyPairOverlap, bbox_overlap,
      sample_valid_placement]
  have h3 : ruleEdgePlacement sample_valid_placement = true := by
    norm_num [ruleEdgePlacement, sample_valid_placement, BOARD_DIMS]
  have h4 : ruleParallel sample_valid_placement = true := by
    norm_num [ruleParallel, sample_valid_placement, BOARD_DIMS]
  have h5 : ruleProximity sample_valid_placement = true := by
    norm_num [ruleProximity, proximityDistSq, distSq, center_of,
      sample_valid_placement, PROXIMITY_RADIUS]
  have h6 : ruleBalance sample_valid_placement = true := by
    norm_num [ruleBalance, comDistSq, com_point, distSq, center_of,
      FullPlacement.values, sample_valid_placement, BOARD_DIMS,
      CENTER_OF_MASS_RADIUS]
  have h7 : ruleKeepOut sample_valid_placement = true := by
    norm_num [ruleKeepOut, line_intersects_rect, segIntersect, ccw,
      compute_keepout_zone, center_of, sample_valid_placement, BOARD_DIMS,
      KEEPOUT_ZONE_DIMS]
  refine ⟨?_, h1, h2, h3, h4, h5, h6, h7, hbb, hc, ?_⟩
  · show (validate_rules sample_valid_placement).overall = true
    simp [RuleResults.overall, validate_rules, h1, h2, h3, h4, h5, h6, h7]
  · unfold total_score centrality_score
    rw [hbb, hc]
    norm_num

/-- A point lies strictly inside a rectangle. -/
def strictly_inside (p : ℚ × ℚ) (r : Rect) : Prop :=
  r.x < p.1 ∧ p.1 < r.x + r.w ∧ r.y < p.2 ∧ p.2 < r.y + r.h

lemma ccw_edge_bottom (p : ℚ × ℚ) (r : Rect) (h : r.y < p.2) :
    ccw p (r.x, r.y) (r.x + r.w, r.y) = decide (0 < r.w) := by
  unfold ccw
  rw [decide_eq_decide]
  dsimp only
  constructor <;> intro hh <;> nlinarith

lemma ccw_edge_right (p : ℚ × ℚ) (r : Rect) (h : p.1 < r.x + r.w) :
    ccw p (r.x + r.w, r.y) (r.x + r.w, r.y + r.h) = decide (0 < r.h) := by
  unfold ccw
  rw [decide_eq_decide]
  dsimp only
  constructor <;> intro hh <;> nlinarith

lemma ccw_edge_top (p : ℚ × ℚ) (r : Rect) (h : p.2 < r.y + r.h) :
    ccw p (r.x + r.w, r.y + r.h) (r.x, r.y + r.h) = decide (0 < r.w) := by
  unfold ccw
  rw [decide_eq_decide]
  dsimp only
  constructor <;> intro hh <;> nlinarith

lemma ccw_edge_left (p : ℚ × ℚ) (r : Rect) (h : r.x < p.1) :
    ccw p (r.x, r.y + r.h) (r.x, r.y) = decide (0 < r.h) := by
  unfold ccw
  rw [decide_eq_decide]
  dsimp only
  constructor <;> intro hh <;> nlinarith

/-- C10: a segment whose two endpoints both lie strictly inside a
rectangle is never reported by `line_intersects_rect` (each orientation
pair agrees, so no strict crossing of an edge is detected); hence for a
complete placement whose crystal and microcontroller centers both lie
strictly inside the derived keep-out zone, the Keep-Out Zone rule passes
even though the whole center-to-center path lies within the zone. -/
theorem inside_segment_not_intersecting :
    (∀ (p1 p2 : ℚ × ℚ) (r : Rect), strictly_inside p1 r → strictly_inside p2 r →
        line_intersects_rect p1 p2 r = false) ∧
    (∀ fp : FullPlacement,
        strictly_inside (center_of fp.xtal) (compute_keepout_zone fp.usb) →
        strictly_inside (center_of fp.mc) (compute_keepout_zone fp.usb) →
        ruleKeepOut fp = true ∧ (validate_rules fp).keepOut.1 = true) := by
  have main : ∀ (p1 p2 : ℚ × ℚ) (r : Rect), strictly_inside p1 r →
      strictly_inside p2 r → line_intersects_rect p1 p2 r = false := by
    intro p1 p2 r h1 h2
    obtain ⟨h1l, h1r, h1b, h1t⟩ := h1
    obtain ⟨h2l, h2r, h2b, h2t⟩ := h2
    simp only [line_intersects_rect, segIntersect]
    rw [ccw_edge_bottom p1 r h1b, ccw_edge_bottom p2 r h2b,
      ccw_edge_right p1 r h1r, ccw_edge_right p2 r h2r,
      ccw_edge_top p1 r h1t, ccw_edge_top p2 r h2t,
      ccw_edge_left p1 r h1l, ccw_edge_left p2 r h2l]
    simp
  refine ⟨main, ?_⟩
  intro fp hx hm
  have : line_intersects_rect (center_of fp.xtal) (center_of fp.mc)
      (compute_keepout_zone fp.usb) = false := main _ _ _ hx hm
  constructor
  · simp [ruleKeepOut, this]
  · show ruleKeepOut fp = true
    simp [ruleKeepOut, this]

/-- C10 witness: a concrete segment strictly inside a concrete rectangle,
and a concrete placement whose crystal and microcontroller centers are
strictly inside the bottom-edge keep-out zone, where the rule passes. -/
theorem inside_segment_not_intersecting_witness :
    line_intersects_rect (1, 1) (2, 3) ⟨0, 0, 4, 4⟩ = false ∧
    ruleKeepOut ⟨⟨20, 0, 5, 5⟩, ⟨20, 10, 5, 5⟩, ⟨18, 1, 5, 5⟩,
      ⟨0, 15, 5, 15⟩, ⟨45, 15, 5, 15⟩⟩ = true :=
  ⟨inside_segment_not_intersecting.1 (1, 1) (2, 3) ⟨0, 0, 4, 4⟩
      (by norm_num [strictly_inside]) (by norm_num [strictly_inside]),
   (inside_segment_not_intersecting.2 ⟨⟨20, 0, 5, 5⟩, ⟨20, 10, 5, 5⟩,
      ⟨18, 1, 5, 5⟩, ⟨0, 15, 5, 15⟩, ⟨45, 15, 5, 15⟩⟩
      (by norm_num [strictly_inside, compute_keepout_zone, center_of,
        BOARD_DIMS, KEEPOUT_ZONE_DIMS])
      (by norm_num [strictly_inside, compute_keepout_zone, center_of,
        BOARD_DIMS, KEEPOUT_ZONE_DIMS])).1⟩

lemma bbox_min_x_le_usb (p : FullPlacement) : bbox_min_x p ≤ p.usb.x :=
  min_le_left _ _

lemma usb_le_bbox_max_x (p : FullPlacement) : p.usb.x + p.usb.w ≤ bbox_max_x p :=
  le_max_left _ _

lemma bbox_min_y_le_usb (p : FullPlacement) : bbox_min_y p ≤ p.usb.y :=
  min_le_left _ _

lemma usb_le_bbox_max_y (p : FullPlacement) : p.usb.y + p.usb.h ≤ bbox_max_y p :=
  le_max_left _ _

/-- C9: scoring is strictly monotonic in bounding-box extent.  If `q`
differs from `p` only in the position of one component (same sizes), the
microcontroller center is unchanged, and the union bounding box strictly
grows (contains the old one, strictly in at least one direction), then
`q` has strictly larger `bounding_box_area` and strictly larger
`total_score`.  The positive-size hypotheses record the program's fixed
component sizes. -/
theorem total_score_monotone_in_bbox :
    ∀ (p q : FullPlacement) (n : CompName),
      (∀ m : CompName, m ≠ n → q.get m = p.get m) →
      (q.get n).w = (p.get n).w →
      (q.get n).h = (p.get n).h →
      center_of q.mc = center_of p.mc →
      0 < p.usb.w → 0 < p.usb.h →
      bbox_min_x q ≤ bbox_min_x p → bbox_max_x p ≤ bbox_max_x q →
      bbox_min_y q ≤ bbox_min_y p → bbox_max_y p ≤ bbox_max_y q →
      (bbox_min_x q < bbox_min_x p ∨ bbox_max_x p < bbox_max_x q ∨
       bbox_min_y q < bbox_min_y p ∨ bbox_max_y p < bbox_max_y q) →
      bounding_box_area p < bounding_box_area q ∧
        total_score p < total_score q := by
  intro p q n hsame hw hh hcenter hwpos hhpos hx1 hx2 hy1 hy2 hstrict
  have hWp : 0 < bbox_max_x p - bbox_min_x p := by
    have h1 := bbox_min_x_le_usb p
    have h2 := usb_le_bbox_max_x p
    linarith
  have hHp : 0 < bbox_max_y p - bbox_min_y p := by
    have h1 := bbox_min_y_le_usb p
    have h2 := usb_le_bbox_max_y p
    linarith
  have harea : bounding_box_area p < bounding_box_area q := by
    unfold bounding_box_area
    rcases hstrict with h | h | h | h
    · nlinarith
    · nlinarith
    · nlinarith
    · nlinarith
  refine ⟨harea, ?_⟩
  have hcent : centralitySq q = centralitySq p := by
    unfold centralitySq
    rw [hcenter]
  unfold total_score centrality_score
  rw [hcent]
  have : (bounding_box_area p : ℝ) < (bounding_box_area q : ℝ) := by
    exact_mod_cast harea
  linarith

/-- C9 witness: moving the crystal of the sample placement straight down
(position only) strictly enlarges the bounding box and strictly
increases area and total score. -/
theorem total_score_monotone_in_bbox_witness :
    bounding_box_area sample_valid_placement <
      bounding_box_area ⟨⟨20, 45, 5, 5⟩, ⟨22, 22, 5, 5⟩, ⟨25, 5, 5, 5⟩,
        ⟨0, 15, 5, 15⟩, ⟨45, 15, 5, 15⟩⟩ ∧
    total_score sample_valid_placement <
      total_score ⟨⟨20, 45, 5, 5⟩, ⟨22, 22, 5, 5⟩, ⟨25, 5, 5, 5⟩,
        ⟨0, 15, 5, 15⟩, ⟨45, 15, 5, 15⟩⟩ :=
  total_score_monotone_in_bbox sample_valid_placement
    ⟨⟨20, 45, 5, 5⟩, ⟨22, 22, 5, 5⟩, ⟨25, 5, 5, 5⟩, ⟨0, 15, 5, 15⟩, ⟨45, 15, 5, 15⟩⟩
    CompName.xtal
    (by intro m hm; cases m <;> first | rfl | exact absurd rfl hm)
    rfl rfl rfl
    (by norm_num [sample_valid_placement])
    (by norm_num [sample_valid_placement])
    (by norm_num [bbox_min_x, sample_valid_placement, min_def])
    (by norm_num [bbox_max_x, sample_valid_placement, max_def])
    (by norm_num [bbox_min_y, sample_valid_placement, min_def])
    (by norm_num [bbox_max_y, sample_valid_placement, max_def])
    (Or.inr (Or.inr (Or.inl (by norm_num [bbox_min_y, sample_valid_placement, min_def]))))

/-- Cross product `(Q - P) × (R - P)`, the quantity whose sign the
specification's strict orientation test inspects. -/
def orient (P Q R : ℚ × ℚ) : ℚ :=
  (Q.1 - P.1) * (R.2 - P.2) - (Q.2 - P.2) * (R.1 - P.1)

/-- Refinement-side definition following the specification's words: the
segment `A-B` crosses the edge `C-D` when the strict orientation
(cross-product sign) tests hold — the endpoints of each segment are
strictly oppositely oriented with respect to the other segment. -/
def spec_strict_crossing (A B C D : ℚ × ℚ) : Prop :=
  ((0 < orient C D A) ↔ ¬ (0 < orient C D B)) ∧
  ((0 < orient A B C) ↔ ¬ (0 < orient A B D))

/-- The four boundary edges of a rectangle, as corner pairs. -/
def spec_rect_edges (r : Rect) : List ((ℚ × ℚ) × (ℚ × ℚ)) :=
  [((r.x, r.y), (r.x + r.w, r.y)),
   ((r.x + r.w, r.y), (r.x + r.w, r.y + r.h)),
   ((r.x + r.w, r.y + r.h), (r.x, r.y + r.h)),
   ((r.x, r.y + r.h), (r.x, r.y))]

/-- Refinement-side definition following the specification's words: the
segment crosses at least one of the rectangle's four boundary edges
under the strict orientation tests. -/
def spec_segment_crosses_rect (p1 p2 : ℚ × ℚ) (r : Rect) : Prop :=
  ∃ e ∈ spec_rect_edges r, spec_strict_crossing p1 p2 e.1 e.2

lemma gt_iff_orient (P Q R : ℚ × ℚ) :
    ((R.2 - P.2) * (Q.1 - P.1) > (Q.2 - P.2) * (R.1 - P.1)) ↔ 0 < orient P Q R := by
  unfold orient
  constructor <;> intro h <;> nlinarith

lemma segIntersect_iff_spec (A B C D : ℚ × ℚ) :
    segIntersect A B C D = true ↔ spec_strict_crossing A B C D := by
  unfold segIntersect ccw spec_strict_crossing
  rw [Bool.and_eq_true, bne_iff_ne, bne_iff_ne, ne_eq, ne_eq,
    decide_eq_decide, decide_eq_decide,
    gt_iff_orient A C D, gt_iff_orient B C D,
    gt_iff_orient A B C, gt_iff_orient A B D]
  have h1 : orient A C D = orient C D A := by unfold orient; ring
  have h2 : orient B C D = orient C D B := by unfold orient; ring
  rw [h1, h2]
  tauto

/-- C6 counterexample: the claim asserts that a segment that only
touches a corner of the rectangle, or is collinear with one of its
edges, is not reported as intersecting.  Both configurations are in fact
reported: the segment `(6,14)-(14,6)` meets the closed square
`[10,14] × [10,14]` in exactly the corner `(10,10)` (at its midpoint),
and the segment `(5,10)-(15,10)` is collinear with the edge from
`(10,10)` to `(14,10)`; `line_intersects_rect` returns `True` on both. -/
theorem line_intersects_rect_touch_counterexample :
    line_intersects_rect (6, 14) (14, 6) ⟨10, 10, 4, 4⟩ = true ∧
    line_intersects_rect (5, 10) (15, 10) ⟨10, 10, 4, 4⟩ = true := by
  constructor <;>
    norm_num [line_intersects_rect, segIntersect, ccw]

/-- C6 amended: `line_intersects_rect` returns true iff the strict
orientation (cross-product sign) crossing test succeeds for at least one
of the rectangle's four boundary edges.  (The claim's further assertion
that corner-touching or edge-collinear segments are never reported is
false: in degenerate configurations one orientation in a pair can be
zero while the other is strictly positive, making the strict tests pass,
as the counterexample shows.) -/
theorem line_intersects_rect_iff_spec_crossing :
    ∀ (p1 p2 : ℚ × ℚ) (r : Rect),
      line_intersects_rect p1 p2 r = true ↔ spec_segment_crosses_rect p1 p2 r := by
  intro p1 p2 r
  unfold line_intersects_rect
  simp only [Bool.or_eq_true, segIntersect_iff_spec]
  unfold spec_segment_crosses_rect spec_rect_edges
  simp only [List.mem_cons, List.not_mem_nil, or_false, exists_eq_or_imp,
    exists_eq_left]
  tauto

/-- C6 amended-theorem witness: a segment properly crossing the left and
right edges of a concrete rectangle is reported by the code test, hence
satisfies the specification-side crossing predicate. -/
theorem line_intersects_rect_iff_spec_crossing_witness :
    spec_segment_crosses_rect (0, 1) (4, 3) ⟨1, 1, 2, 2⟩ :=
  (line_intersects_rect_iff_spec_crossing (0, 1) (4, 3) ⟨1, 1, 2, 2⟩).mp
    (by norm_num [line_intersects_rect, segIntersect, ccw])

/-- Python `int()` applied to a rational: truncation toward zero. -/
def pyInt (q : ℚ) : ℤ := if 0 ≤ q then ⌊q⌋ else ⌈q⌉

/-- `range(lo, hi + 1)` as a list of integers. -/
def intRange (lo hi : ℤ) : List ℤ :=
  (List.range (hi + 1 - lo).toNat).map (fun i : ℕ => lo + (i : ℤ))

/-- The generator's bounds filter
`0 <= x <= BOARD_DIMS[0] - SIZES['MICROCONTROLLER'][0]` (and same for
`y`): the microcontroller's full extent stays on the board. -/
def genOk (x y : ℤ) : Bool :=
  decide (0 ≤ x) && decide (x ≤ 50 - 5) && decide (0 ≤ y) && decide (y ≤ 50 - 5)

/-- One square ring of `prioritized_positions`: first the top and bottom
rows (`dx` from `-r` to `r`, `dy ∈ {-r, r}`), then the left and right
columns excluding corners (`dy` from `-r+1` to `r-1`, `dx ∈ {-r, r}`),
each cell kept only when `genOk`. -/
def ringPositions (r : ℤ) : List (ℤ × ℤ) :=
  ((intRange (-r) r).flatMap (fun dx =>
    ([-r, r] : List ℤ).filterMap (fun dy =>
      let x := 25 + dx
      let y := 25 + dy
      if genOk x y then some (x, y) else none))) ++
  ((intRange (-r + 1) (r - 1)).flatMap (fun dy =>
    ([-r, r] : List ℤ).filterMap (fun dx =>
      let x := 25 + dx
      let y := 25 + dy
      if genOk x y then some (x, y) else none)))

/-- `prioritized_positions()` run to exhaustion: the center cell
`(int(25.0), int(25.0)) = (25, 25)` (yielded unfiltered), followed by
the rings `r = 1, …, maxr - 1` with `maxr = max(BOARD_DIMS) = 50`.
The Python generator is lazy; the wall-clock timeout merely truncates
how much of this fixed finite sequence is consumed. -/
def prioritized_positions : List (ℤ × ℤ) :=
  (25, 25) :: (intRange 1 (50 - 1)).flatMap ringPositions

/-- The crystal candidate grid for a microcontroller grid position
`(mx, my)`: columns `range(min_cx, max_cx + 1, GRID_STEP)` and rows
`range(min_cy, max_cy + 1, GRID_STEP)` with `GRID_STEP = 1`, where the
bounds clamp `int(mc_center ∓ PROXIMITY_RADIUS)` into
`[0, BOARD_DIMS - xt_size]`. -/
def crystalRange (m : ℤ × ℤ) : List (ℤ × ℤ) :=
  let mc_cx : ℚ := (m.1 : ℚ) + 5 / 2
  let mc_cy : ℚ := (m.2 : ℚ) + 5 / 2
  let min_cx : ℤ := max 0 (pyInt (mc_cx - PROXIMITY_RADIUS))
  let max_cx : ℤ := min (50 - 5) (pyInt (mc_cx + PROXIMITY_RADIUS))
  let min_cy : ℤ := max 0 (pyInt (mc_cy - PROXIMITY_RADIUS))
  let max_cy : ℤ := min (50 - 5) (pyInt (mc_cy + PROXIMITY_RADIUS))
  (intRange min_cx max_cx).flatMap (fun cx =>
    (intRange min_cy max_cy).map (fun cy => (cx, cy)))

/-- Exact decision of `b1 + 10·√c1 < b2 + 10·√c2` for rational
`b1, c1, b2, c2` with `c1, c2 ≥ 0`: this embeds the float comparison
`total_score < best_score` of `find_solution`, where a score is
`bbox_area + 10 * centrality` and `c` records the squared centrality.
Worked out by isolating the radicals and squaring twice. -/
def scoreLt (b1 c1 b2 c2 : ℚ) : Bool :=
  let e := (b2 - b1) / 10
  if e < 0 ∧ c2 < e ^ 2 then
    false
  else
    let g := c1 - c2 - e ^ 2
    if 0 ≤ e then
      (if g < 0 then true else decide (g ^ 2 < 4 * e ^ 2 * c2))
    else
      (if g < 0 then decide (4 * e ^ 2 * c2 < g ^ 2) else false)

/-- A scored search candidate: the assembled placement together with its
`(bounding_box_area, centralitySq)`; the float score of the source is
`bbox + 10·√centralitySq`, recovered by `total_score`. -/
def Candidate : Type := FullPlacement × ℚ × ℚ

/-- The per-candidate body of `find_solution`'s nested loops: all pruning
checks in source order, returning the scored assembled placement when
every check passes.  `base` is the seated edge placement and `zone` the
keep-out zone precomputed from its USB connector. -/
def candChecks (base : BasePlacement) (zone : Rect) (m c : ℤ × ℤ) :
    Option Candidate :=
  let mcR : Rect := ⟨(m.1 : ℚ), (m.2 : ℚ), 5, 5⟩
  if bbox_overlap mcR base.mb1 || bbox_overlap mcR base.mb2 ||
      bbox_overlap mcR base.usb then none
  else
    let xtR : Rect := ⟨(c.1 : ℚ), (c.2 : ℚ), 5, 5⟩
    if decide (PROXIMITY_RADIUS ^ 2 < distSq (center_of mcR) (center_of xtR)) then none
    else if !in_bounds xtR then none
    else if bbox_overlap xtR base.mb1 || bbox_overlap xtR base.mb2 ||
        bbox_overlap xtR base.usb then none
    else if bbox_overlap xtR mcR then none
    else
      let fp : FullPlacement := ⟨base.usb, mcR, xtR, base.mb1, base.mb2⟩
      if decide (CENTER_OF_MASS_RADIUS ^ 2 < comDistSq fp) then none
      else if line_intersects_rect (center_of fp.xtal) (center_of fp.mc) zone then none
      else if anyPairOverlap fp.values then none
      else some (fp, bounding_box_area fp, centralitySq fp)

/-- One step of the best-candidate tracking: keep the previous best
unless the candidate passes all checks and (then) either there is no
best yet (`best_score = inf`) or its score is strictly lower. -/
def searchStep (base : BasePlacement) (zone : Rect)
    (best : Option Candidate) (x : (ℤ × ℤ) × (ℤ × ℤ)) : Option Candidate :=
  match candChecks base zone x.1 x.2 with
  | none => best
  | some cand =>
    match best with
    | none => some cand
    | some b => if scoreLt cand.2.1 cand.2.2 b.2.1 b.2.2 then some cand else b

/-- The keep-out zone `find_solution` precomputes from the seated USB. -/
def base_keepout_zone : Rect :=
  compute_keepout_zone place_edge_components.usb

/-- The search of `find_solution` over an arbitrary finite sequence of
(microcontroller, crystal) grid-position pairs.  The source's wall-clock
timeout can only truncate the fixed enumeration order, so every run of
`find_solution(timeout)` computes `find_solution_from cands` for some
such sequence of candidate pairs drawn from the generator. -/
def find_solution_from (cands : List ((ℤ × ℤ) × (ℤ × ℤ))) : Option Candidate :=
  cands.foldl (searchStep place_edge_components base_keepout_zone) none

/-- The full candidate enumeration: every generator position paired with
each cell of its crystal grid, in source order. -/
def all_candidate_pairs : List ((ℤ × ℤ) × (ℤ × ℤ)) :=
  prioritized_positions.flatMap (fun m => (crystalRange m).map (fun c => (m, c)))

/-- `find_solution` with the deadline disabled (run to exhaustion). -/
def find_solution : Option Candidate :=
  find_solution_from all_candidate_pairs

/-- The bounds invariant of the generator's cells: the filter of
`prioritized_positions` (the unfiltered first yield `(25, 25)` also
satisfies it). -/
def mc_gen_bounds (m : ℤ × ℤ) : Prop :=
  0 ≤ m.1 ∧ m.1 ≤ 50 - 5 ∧ 0 ≤ m.2 ∧ m.2 ≤ 50 - 5

/-- A candidate passes all the pruning checks of `find_solution`. -/
def accepts_candidate (x : (ℤ × ℤ) × (ℤ × ℤ)) : Bool :=
  (candChecks place_edge_components base_keepout_zone x.1 x.2).isSome

lemma distSq_comm (a b : ℚ × ℚ) : distSq a b = distSq b a := by
  unfold distSq
  ring

lemma candChecks_valid (m c : ℤ × ℤ) (fp : FullPlacement) (bb cs : ℚ)
    (hm : mc_gen_bounds m)
    (h : candChecks place_edge_components base_keepout_zone m c = some (fp, bb, cs)) :
    (validate_full fp.toPlacement).1 = true := by
  obtain ⟨a1, a2, a3, a4⟩ := hm
  simp only [candChecks] at h
  split_ifs at h with h1 h2 h3 h4 h5 h6 h7 h8
  simp only [Option.some.injEq] at h
  rw [Prod.ext_iff] at h
  obtain ⟨hfp, -⟩ := h
  dsimp only at hfp
  subst hfp
  show (validate_rules _).overall = true
  have hbd : ruleBoundary ⟨place_edge_components.usb, ⟨(m.1 : ℚ), (m.2 : ℚ), 5, 5⟩,
      ⟨(c.1 : ℚ), (c.2 : ℚ), 5, 5⟩, place_edge_components.mb1,
      place_edge_components.mb2⟩ = true := by
    have hmc : in_bounds ⟨(m.1 : ℚ), (m.2 : ℚ), 5, 5⟩ = true := by
      unfold in_bounds BOARD_DIMS
      simp only [Bool.and_eq_true, decide_eq_true_eq]
      have b1 : (0 : ℚ) ≤ (m.1 : ℚ) := by exact_mod_cast a1
      have b2 : (m.1 : ℚ) ≤ 45 := by exact_mod_cast a2
      have b3 : (0 : ℚ) ≤ (m.2 : ℚ) := by exact_mod_cast a3
      have b4 : (m.2 : ℚ) ≤ 45 := by exact_mod_cast a4
      refine ⟨⟨⟨b1, b3⟩, by linarith⟩, by linarith⟩
    have hxt : in_bounds ⟨(c.1 : ℚ), (c.2 : ℚ), 5, 5⟩ = true := by
      simpa using h3
    unfold ruleBoundary FullPlacement.values
    simp only [List.all_cons, List.all_nil, Bool.and_eq_true, hmc, hxt]
    refine ⟨?_, ?_, ?_, ?_⟩ <;>
      norm_num [in_bounds, place_edge_components, BOARD_DIMS]
  have hno : ruleNoOverlap ⟨place_edge_components.usb, ⟨(m.1 : ℚ), (m.2 : ℚ), 5, 5⟩,
      ⟨(c.1 : ℚ), (c.2 : ℚ), 5, 5⟩, place_edge_components.mb1,
      place_edge_components.mb2⟩ = true := by
    unfold ruleNoOverlap
    simp only [Bool.not_eq_true'] 
    exact Bool.not_eq_true _ ▸ (by simpa using h8)
  have hed : ruleEdgePlacement ⟨place_edge_components.usb, ⟨(m.1 : ℚ), (m.2 : ℚ), 5, 5⟩,
      ⟨(c.1 : ℚ), (c.2 : ℚ), 5, 5⟩, place_edge_components.mb1,
      place_edge_components.mb2⟩ = true := by
    norm_num [ruleEdgePlacement, place_edge_components, BOARD_DIMS]
  have hpar : ruleParallel ⟨place_edge_components.usb, ⟨(m.1 : ℚ), (m.2 : ℚ), 5, 5⟩,
      ⟨(c.1 : ℚ), (c.2 : ℚ), 5, 5⟩, place_edge_components.mb1,
      place_edge_components.mb2⟩ = true := by
    norm_num [ruleParallel, place_edge_components, BOARD_DIMS]
  have hprox : ruleProximity ⟨place_edge_components.usb, ⟨(m.1 : ℚ), (m.2 : ℚ), 5, 5⟩,
      ⟨(c.1 : ℚ), (c.2 : ℚ), 5, 5⟩, place_edge_components.mb1,
      place_edge_components.mb2⟩ = true := by
    unfold ruleProximity proximityDistSq
    simp only [decide_eq_true_eq]
    rw [distSq_comm]
    simpa using h2
  have hbal : ruleBalance ⟨place_edge_components.usb, ⟨(m.1 : ℚ), (m.2 : ℚ), 5, 5⟩,
      ⟨(c.1 : ℚ), (c.2 : ℚ), 5, 5⟩, place_edge_components.mb1,
      place_edge_components.mb2⟩ = true := by
    unfold ruleBalance
    simp only [decide_eq_true_eq]
    simpa using h6
  have hko : ruleKeepOut ⟨place_edge_components.usb, ⟨(m.1 : ℚ), (m.2 : ℚ), 5, 5⟩,
      ⟨(c.1 : ℚ), (c.2 : ℚ), 5, 5⟩, place_edge_components.mb1,
      place_edge_components.mb2⟩ = true := by
    unfold ruleKeepOut
    have : line_intersects_rect
        (center_of ⟨(c.1 : ℚ), (c.2 : ℚ), 5, 5⟩)
        (center_of ⟨(m.1 : ℚ), (m.2 : ℚ), 5, 5⟩) base_keepout_zone = false := by
      simpa using h7
    exact this ▸ rfl
  simp [RuleResults.overall, validate_rules, hbd, hno, hed, hpar, hprox, hbal, hko]

lemma find_solution_fold_valid :
    ∀ (cands : List ((ℤ × ℤ) × (ℤ × ℤ))) (acc : Option Candidate),
      (∀ x ∈ cands, mc_gen_bounds x.1) →
      (∀ (fp : FullPlacement) (bb cs : ℚ), acc = some (fp, bb, cs) →
        (validate_full fp.toPlacement).1 = true) →
      ∀ (fp : FullPlacement) (bb cs : ℚ),
        cands.foldl (searchStep place_edge_components base_keepout_zone) acc =
          some (fp, bb, cs) →
        (validate_full fp.toPlacement).1 = true := by
  intro cands
  induction cands with
  | nil =>
    intro acc _ hacc fp bb cs h
    exact hacc fp bb cs h
  | cons head tail ih =>
    intro acc hmem hacc fp bb cs h
    rw [List.foldl_cons] at h
    refine ih _ (fun x hx => hmem x (List.mem_cons_of_mem _ hx)) ?_ fp bb cs h
    intro fp' bb' cs' hstep
    unfold searchStep at hstep
    cases hcc : candChecks place_edge_components base_keepout_zone head.1 head.2 with
    | none =>
      rw [hcc] at hstep
      exact hacc fp' bb' cs' hstep
    | some cand =>
      rw [hcc] at hstep
      obtain ⟨cfp, cbb, ccs⟩ := cand
      cases acc with
      | none =>
        simp only [Option.some.injEq] at hstep
        rw [Prod.ext_iff] at hstep
        obtain ⟨hfp, -⟩ := hstep
        dsimp only at hfp
        subst hfp
        exact candChecks_valid head.1 head.2 _ cbb ccs
          (hmem head (List.mem_cons_self _ _)) hcc
      | some b =>
        dsimp only at hstep
        split_ifs at hstep with hlt
        · simp only [Option.some.injEq] at hstep
          rw [Prod.ext_iff] at hstep
          obtain ⟨hfp, -⟩ := hstep
          dsimp only at hfp
          subst hfp
          exact candChecks_valid head.1 head.2 _ cbb ccs
            (hmem head (List.mem_cons_self _ _)) hcc
        · exact hacc fp' bb' cs' hstep

/-- C1: for any sequence of candidate pairs whose microcontroller
positions satisfy the generator's bounds filter (which is every sequence
the generator can produce, under any wall-clock truncation), if the
search returns a placement then `validate_full` accepts it with
`overall = true`.  In particular `find_solution`, for any timeout, never
returns a placement failing the validator. -/
theorem find_solution_roundtrip_valid :
    ∀ (cands : List ((ℤ × ℤ) × (ℤ × ℤ))),
      (∀ x ∈ cands, mc_gen_bounds x.1) →
      ∀ (fp : FullPlacement) (bb cs : ℚ),
        find_solution_from cands = some (fp, bb, cs) →
        (validate_full fp.toPlacement).1 = true := by
  intro cands hmem fp bb cs h
  exact find_solution_fold_valid cands none hmem (by intro _ _ _ hx; cases hx) fp bb cs h

/-- C1 witness: running the search on the single candidate pair
`(mc = (22, 22), crystal = (23, 15))` (which satisfies the generator
bounds) returns a placement, and that placement validates. -/
theorem find_solution_roundtrip_valid_witness :
    (validate_full (FullPlacement.toPlacement ⟨⟨45 / 2, 45, 5, 5⟩, ⟨22, 22, 5, 5⟩,
      ⟨23, 15, 5, 5⟩, ⟨0, 10, 5, 15⟩, ⟨45, 10, 5, 15⟩⟩)).1 = true :=
  find_solution_roundtrip_valid [((22, 22), (23, 15))]
    (by
      intro x hx
      simp only [List.mem_singleton] at hx
      subst hx
      exact ⟨by norm_num, by norm_num, by norm_num, by norm_num⟩)
    ⟨⟨45 / 2, 45, 5, 5⟩, ⟨22, 22, 5, 5⟩, ⟨23, 15, 5, 5⟩,
      ⟨0, 10, 5, 15⟩, ⟨45, 10, 5, 15⟩⟩ 2000 (1 / 2)
    (by
      norm_num [find_solution_from, searchStep, candChecks, place_edge_components,
        base_keepout_zone, compute_keepout_zone, center_of, distSq, comDistSq,
        com_point, FullPlacement.values, bbox_overlap, in_bounds, anyPairOverlap,
        line_intersects_rect, segIntersect, ccw, bounding_box_area, bbox_min_x,
        bbox_max_x, bbox_min_y, bbox_max_y, centralitySq, BOARD_DIMS,
        PROXIMITY_RADIUS, CENTER_OF_MASS_RADIUS, KEEPOUT_ZONE_DIMS, min_def, max_def])

lemma intRange_length (lo hi : ℤ) : (intRange lo hi).length = (hi + 1 - lo).toNat := by
  rw [intRange, List.length_map, List.length_range]

lemma length_flatMap_le {α β : Type} (l : List α) (f : α → List β) (k : ℕ)
    (hk : ∀ a ∈ l, (f a).length ≤ k) : (l.flatMap f).length ≤ l.length * k := by
  induction l with
  | nil => simp
  | cons a t ih =>
    simp only [List.flatMap_cons, List.length_append, List.length_cons]
    have h1 := hk a (List.mem_cons_self _ _)
    have h2 := ih (fun x hx => hk x (List.mem_cons_of_mem _ hx))
    have h3 : (t.length + 1) * k = t.length * k + k := Nat.succ_mul _ _
    omega

lemma ringPositions_length_le (r : ℤ) (hr : r ≤ 49) :
    (ringPositions r).length ≤ 392 := by
  unfold ringPositions
  rw [List.length_append]
  have hb1 : ((intRange (-r) r).flatMap (fun dx =>
      ([-r, r] : List ℤ).filterMap (fun dy =>
        let x := 25 + dx
        let y := 25 + dy
        if genOk x y then some (x, y) else none))).length ≤
      (intRange (-r) r).length * 2 := by
    refine length_flatMap_le _ _ 2 ?_
    intro a _
    exact le_trans (List.length_filterMap_le _ _) (by simp)
  have hb2 : ((intRange (-r + 1) (r - 1)).flatMap (fun dy =>
      ([-r, r] : List ℤ).filterMap (fun dx =>
        let x := 25 + dx
        let y := 25 + dy
        if genOk x y then some (x, y) else none))).length ≤
      (intRange (-r + 1) (r - 1)).length * 2 := by
    refine length_flatMap_le _ _ 2 ?_
    intro a _
    exact le_trans (List.length_filterMap_le _ _) (by simp)
  rw [intRange_length] at hb1 hb2
  have e1 : (r + 1 - -r).toNat ≤ 99 := by omega
  have e2 : (r - 1 + 1 - (-r + 1)).toNat ≤ 97 := by omega
  have : (r + 1 - -r).toNat * 2 ≤ 198 := by omega
  have : (r - 1 + 1 - (-r + 1)).toNat * 2 ≤ 194 := by omega
  omega

lemma mem_intRange {x lo hi : ℤ} : x ∈ intRange lo hi ↔ lo ≤ x ∧ x ≤ hi := by
  simp only [intRange, List.mem_map, List.mem_range]
  constructor
  · rintro ⟨i, hi2, rfl⟩
    omega
  · rintro ⟨h1, h2⟩
    refine ⟨(x - lo).toNat, ?_, ?_⟩ <;> omega

lemma prioritized_positions_length_le :
    prioritized_positions.length ≤ 1 + 49 * 392 := by
  unfold prioritized_positions
  rw [List.length_cons]
  have h : ((intRange 1 (50 - 1)).flatMap ringPositions).length ≤
      (intRange 1 (50 - 1)).length * 392 := by
    refine length_flatMap_le _ _ 392 ?_
    intro a ha
    exact ringPositions_length_le a (by have := (mem_intRange.mp ha).2; omega)
  rw [intRange_length] at h
  omega

lemma crystalRange_length_le (m : ℤ × ℤ) : (crystalRange m).length ≤ 46 * 46 := by
  unfold crystalRange
  have h1 : (0 : ℤ) ≤ max 0 (pyInt ((m.1 : ℚ) + 5 / 2 - PROXIMITY_RADIUS)) :=
    le_max_left _ _
  have h2 : min ((50 : ℤ) - 5) (pyInt ((m.1 : ℚ) + 5 / 2 + PROXIMITY_RADIUS)) ≤ 45 := by
    have := min_le_left ((50 : ℤ) - 5) (pyInt ((m.1 : ℚ) + 5 / 2 + PROXIMITY_RADIUS))
    omega
  have h3 : (0 : ℤ) ≤ max 0 (pyInt ((m.2 : ℚ) + 5 / 2 - PROXIMITY_RADIUS)) :=
    le_max_left _ _
  have h4 : min ((50 : ℤ) - 5) (pyInt ((m.2 : ℚ) + 5 / 2 + PROXIMITY_RADIUS)) ≤ 45 := by
    have := min_le_left ((50 : ℤ) - 5) (pyInt ((m.2 : ℚ) + 5 / 2 + PROXIMITY_RADIUS))
    omega
  refine le_trans (length_flatMap_le _ _ 46 ?_) ?_
  · intro a _
    rw [List.length_map, intRange_length]
    omega
  · rw [intRange_length]
    refine Nat.mul_le_mul_right _ ?_
    omega

lemma find_solution_fold_none :
    ∀ (cands : List ((ℤ × ℤ) × (ℤ × ℤ))) (acc : Option Candidate),
      (cands.foldl (searchStep place_edge_components base_keepout_zone) acc = none ↔
        acc = none ∧ cands.all (fun x => !accepts_candidate x) = true) := by
  intro cands
  induction cands with
  | nil =>
    intro acc
    simp
  | cons head tail ih =>
    intro acc
    rw [List.foldl_cons, ih, List.all_cons, Bool.and_eq_true]
    constructor
    · rintro ⟨hstep, hall⟩
      unfold searchStep at hstep
      cases hcc : candChecks place_edge_components base_keepout_zone head.1 head.2 with
      | none =>
        rw [hcc] at hstep
        exact ⟨hstep, by simp [accepts_candidate, hcc], hall⟩
      | some cand =>
        exfalso
        rw [hcc] at hstep
        cases acc with
        | none => exact Option.noConfusion hstep
        | some b =>
          dsimp only at hstep
          split_ifs at hstep
    · rintro ⟨hacc, hrej, hall⟩
      refine ⟨?_, hall⟩
      subst hacc
      unfold searchStep
      cases hcc : candChecks place_edge_components base_keepout_zone head.1 head.2 with
      | none => rfl
      | some cand =>
        exfalso
        rw [accepts_candidate, hcc] at hrej
        exact Bool.noConfusion hrej

/-- C8: the enumeration of `find_solution` run with the deadline
disabled is finite and the search terminates by exhaustion: the ring
enumeration is the explicit finite list `prioritized_positions` (rings
stop at radius `maxr - 1 = 49`, so at most `1 + 49·392` cells), every
inner crystal enumeration is a grid square of at most `46 × 46` cells,
and on exhaustion the fold returns the no-solution value `none` exactly
when no enumerated candidate passed the pruning checks — otherwise it
returns the best (lowest-score) candidate tracked so far. -/
theorem search_enumeration_finite_exhaustion :
    prioritized_positions.length ≤ 1 + 49 * 392 ∧
    (∀ m : ℤ × ℤ, (crystalRange m).length ≤ 46 * 46) ∧
    (find_solution = none ↔
      all_candidate_pairs.all (fun x => !accepts_candidate x) = true) := by
  refine ⟨prioritized_positions_length_le, crystalRange_length_le, ?_⟩
  unfold find_solution find_solution_from
  rw [find_solution_fold_none]
  simp
